import Mathlib

/-!
Verification of the trend ("viral") index computations of the
ecommerce-product-review-analysis repository.

Two implementations are embedded:

* the monthly pipeline of `src/월별 바이럴 지수/calculate_viral_index.py`
  (`calculate_viral_index`): month-over-month growth via `pct_change()`,
  deviation from a 3-month rolling mean, column z-scores via pandas
  `mean()`/`std()` (sample standard deviation, `ddof = 1`), combined as
  `mom.fillna(0)*0.5 + dev.fillna(0)*0.3 + z.fillna(0)*20*0.2`, with a
  per-month descending sort and top-3 extraction;

* the weekly pipeline of `src/analysis/calculate_weekly_viral_index.py`
  (`calculate_weekly_viral_index`): week-over-week growth with a `+1`
  denominator, deviation from a 4-week rolling mean with a `+1`
  denominator, z-scores with a `+1e-9` denominator offset, combined as
  `wow.clip(upper=300).fillna(0)*0.4 + dev.clip(upper=300).fillna(0)*0.4 +
  z.clip(-3,3).fillna(0)*10*0.2`.

Counts are exact naturals and arithmetic is exact (ℚ, and ℝ where a square
root is involved); IEEE special values produced by pandas (NaN from `0/0`,
`shift(1)` and `std()` of a single sample, infinities from division by
zero) are modelled explicitly by the `Val` carrier below.  Category labels
are encoded as naturals carrying the same equality and (sort) order
structure as the original string labels.
-/

/-- A pandas/IEEE-style scalar: an exact number, NaN, or a signed infinity. -/
inductive Val (α : Type) where
  | num (x : α)
  | nan
  | inf
  | ninf
  deriving DecidableEq

namespace Val

/-- IEEE addition on `Val`: NaN propagates, `inf + ninf` is NaN. -/
def add {α : Type} [Add α] : Val α → Val α → Val α
  | num a, num b => num (a + b)
  | num _, nan => nan
  | num _, inf => inf
  | num _, ninf => ninf
  | nan, _ => nan
  | inf, num _ => inf
  | inf, nan => nan
  | inf, inf => inf
  | inf, ninf => nan
  | ninf, num _ => ninf
  | ninf, nan => nan
  | ninf, inf => nan
  | ninf, ninf => ninf

/-- Multiplication by an exact rational constant (the literal weights and
scale factors of the source), with IEEE sign handling on infinities. -/
def smul {α : Type} [Mul α] [RatCast α] (c : ℚ) : Val α → Val α
  | num a => num (a * (c : α))
  | nan => nan
  | inf => if 0 < c then inf else if c = 0 then nan else ninf
  | ninf => if 0 < c then ninf else if c = 0 then nan else inf

/-- pandas `fillna(0)`: replaces NaN (and only NaN) by `0`. -/
def fillna0 {α : Type} [Zero α] : Val α → Val α
  | num a => num a
  | nan => num 0
  | inf => inf
  | ninf => ninf

/-- pandas `clip(upper=u)`: caps numbers and `+inf` at `u`, keeps NaN and `-inf`. -/
def clip_upper (u : ℚ) : Val ℚ → Val ℚ
  | num a => num (min a u)
  | nan => nan
  | inf => num u
  | ninf => ninf

/-- pandas `clip(lower=lo, upper=hi)` on real-valued entries. -/
noncomputable def clip_both (lo hi : ℚ) : Val ℝ → Val ℝ
  | num a => num (max (lo : ℝ) (min a (hi : ℝ)))
  | nan => nan
  | inf => num (hi : ℝ)
  | ninf => num (lo : ℝ)

/-- Embeds a rational-valued pandas scalar into a real-valued one. -/
noncomputable def toReal : Val ℚ → Val ℝ
  | num a => num (a : ℝ)
  | nan => nan
  | inf => inf
  | ninf => ninf

end Val

/-- Exact model of float division `a / b`: on a zero denominator it produces
NaN (from `0/0`) or a signed infinity, exactly as pandas does. -/
def qdiv (a b : ℚ) : Val ℚ :=
  if b = 0 then (if a = 0 then Val.nan else if 0 < a then Val.inf else Val.ninf)
  else Val.num (a / b)

open Classical in
/-- Exact model of float division over the reals, as `qdiv`. -/
noncomputable def rdiv (a b : ℝ) : Val ℝ :=
  if b = 0 then (if a = 0 then Val.nan else if 0 < a then Val.inf else Val.ninf)
  else Val.num (a / b)

/-- The count of bucket `t` in a per-category count column (a column of the
pivoted bucket × category count matrix, counts listed in bucket order). -/
def cnt (col : List ℕ) (t : ℕ) : ℚ := (col.getD t 0 : ℚ)

/-- Trailing rolling mean with window `w` and `min_periods=1`, as in
`rolling(window=w, min_periods=1).mean()`: the mean of the last up-to-`w`
entries ending at `t` (always at least one entry). -/
def rolling_mean (w : ℕ) (col : List ℕ) (t : ℕ) : ℚ :=
  (((List.range (min w (t + 1))).map (fun k => cnt col (t - k))).sum) /
    ((min w (t + 1) : ℕ) : ℚ)

/-- Column mean, as pandas `mean()` over the whole series. -/
def mean_q (col : List ℕ) : ℚ := ((col.map (fun c => (c : ℚ))).sum) / (col.length : ℚ)

/-- Column sample variance (`ddof = 1`), the square of pandas `std()`. -/
def var_q (col : List ℕ) : ℚ :=
  ((col.map (fun c => ((c : ℚ) - mean_q col) ^ 2)).sum) / (((col.length - 1 : ℕ) : ℚ))

/-! ### Monthly pipeline (`calculate_viral_index.py`) -/

/-- Monthly growth signal: `count_df.pct_change() * 100`, i.e.
`(counts[t] - counts[t-1]) / counts[t-1] * 100` with a raw denominator.
The first bucket has no predecessor and is NaN. -/
def mom_growth (col : List ℕ) (t : ℕ) : Val ℚ :=
  if t = 0 then Val.nan
  else (qdiv (cnt col t - cnt col (t - 1)) (cnt col (t - 1))).smul 100

/-- Monthly deviation signal: `((count_df - ma3) / ma3) * 100` with
`ma3 = rolling(window=3, min_periods=1).mean()` and a raw denominator. -/
def monthly_ma_deviation (col : List ℕ) (t : ℕ) : Val ℚ :=
  (qdiv (cnt col t - rolling_mean 3 col t) (rolling_mean 3 col t)).smul 100

/-- Monthly z-score: `(count_df - count_df.mean()) / count_df.std()`, the
sample (`ddof = 1`) standard deviation with no epsilon offset.  For a
single-entry column pandas `std()` is NaN, hence so is the z-score. -/
noncomputable def monthly_z (col : List ℕ) (t : ℕ) : Val ℝ :=
  if col.length < 2 then Val.nan
  else rdiv ((cnt col t - mean_q col : ℚ) : ℝ) (Real.sqrt ((var_q col : ℝ)))

/-- Growth contribution to the monthly composite: `mom_growth.fillna(0) * 0.5`. -/
def monthly_growth_term (col : List ℕ) (t : ℕ) : Val ℚ :=
  ((mom_growth col t).fillna0).smul 0.5

/-- Deviation contribution to the monthly composite: `ma_deviation.fillna(0) * 0.3`. -/
def monthly_ma_term (col : List ℕ) (t : ℕ) : Val ℚ :=
  ((monthly_ma_deviation col t).fillna0).smul 0.3

/-- Z contribution to the monthly composite: `z_scores.fillna(0) * 20 * 0.2`. -/
noncomputable def monthly_z_term (col : List ℕ) (t : ℕ) : Val ℝ :=
  (((monthly_z col t).fillna0).smul 20).smul 0.2

/-- The monthly composite (viral) index:
`mom_growth.fillna(0)*0.5 + ma_deviation.fillna(0)*0.3 + z_scores.fillna(0)*20*0.2`. -/
noncomputable def monthly_viral_index (col : List ℕ) (t : ℕ) : Val ℝ :=
  (((monthly_growth_term col t).toReal).add ((monthly_ma_term col t).toReal)).add
    (monthly_z_term col t)

/-! ### Weekly pipeline (`calculate_weekly_viral_index.py`) -/

/-- Weekly growth signal: `((weekly_counts - prev) / (prev + 1)) * 100` with
`prev = weekly_counts.shift(1)`; the shifted first entry is NaN. -/
def wow_growth (col : List ℕ) (t : ℕ) : Val ℚ :=
  if t = 0 then Val.nan
  else (qdiv (cnt col t - cnt col (t - 1)) (cnt col (t - 1) + 1)).smul 100

/-- Weekly deviation signal: `((weekly_counts - ma4) / (ma4 + 1)) * 100` with
`ma4 = rolling(window=4, min_periods=1).mean()`. -/
def weekly_ma_deviation (col : List ℕ) (t : ℕ) : Val ℚ :=
  (qdiv (cnt col t - rolling_mean 4 col t) (rolling_mean 4 col t + 1)).smul 100

/-- Weekly z-score: `(weekly_counts - mean) / (std + 1e-9)`; pandas `std()`
of a single-entry column is NaN, which the `+1e-9` does not repair. -/
noncomputable def weekly_z (col : List ℕ) (t : ℕ) : Val ℝ :=
  if col.length < 2 then Val.nan
  else rdiv ((cnt col t - mean_q col : ℚ) : ℝ) (Real.sqrt ((var_q col : ℝ)) + 1e-9)

/-- Growth contribution to the weekly composite:
`wow_growth.clip(upper=300).fillna(0) * 0.4`. -/
def weekly_growth_term (col : List ℕ) (t : ℕ) : Val ℚ :=
  (((wow_growth col t).clip_upper 300).fillna0).smul 0.4

/-- Deviation contribution to the weekly composite:
`ma_deviation.clip(upper=300).fillna(0) * 0.4`. -/
def weekly_ma_term (col : List ℕ) (t : ℕ) : Val ℚ :=
  (((weekly_ma_deviation col t).clip_upper 300).fillna0).smul 0.4

/-- Z contribution to the weekly composite:
`z_scores.clip(lower=-3, upper=3).fillna(0) * 10 * 0.2`. -/
noncomputable def weekly_z_term (col : List ℕ) (t : ℕ) : Val ℝ :=
  ((((weekly_z col t).clip_both (-3) 3).fillna0).smul 10).smul 0.2

/-- The weekly composite (viral) index. -/
noncomputable def weekly_viral_index (col : List ℕ) (t : ℕ) : Val ℝ :=
  (((weekly_growth_term col t).toReal).add ((weekly_ma_term col t).toReal)).add
    (weekly_z_term col t)

/-! ### Count-matrix aggregation, row filtering, ranking and display
(`calculate_viral_index.py`, steps 1, 2 and 4) -/

/-- Step 1 row filter: `df[df['카테고리'] != '미분류']` keeps exactly the rows
whose category label differs from the literal '미분류'; a missing (NaN)
category also differs from it and is kept.  A row is a (month, category)
pair with the category possibly missing. -/
def df_classified (rows : List (ℕ × Option String)) : List (ℕ × Option String) :=
  rows.filter (fun r => r.2 != some "미분류")

/-- The observed month keys: `sorted(df_classified['년월'].unique())`. -/
def months_of (rows : List (ℕ × ℕ)) : List ℕ :=
  List.insertionSort (· ≤ ·) ((rows.map Prod.fst).dedup)

/-- The observed category labels: `sorted(df_classified['카테고리'].unique())`
(sorted label order, not first-seen order). -/
def categories_of (rows : List (ℕ × ℕ)) : List ℕ :=
  List.insertionSort (· ≤ ·) ((rows.map Prod.snd).dedup)

/-- The count `len(month_data[month_data['카테고리'] == cat])`: the number of
raw rows with the given month and category. -/
def cat_count (rows : List (ℕ × ℕ)) (m c : ℕ) : ℕ :=
  (rows.filter (fun r => r.1 == m && r.2 == c)).length

/-- The nested dict `monthly_counts`: for every observed month, an inner
association list with one entry per observed category, holding `cat_count`. -/
def monthly_counts (rows : List (ℕ × ℕ)) : List (ℕ × List (ℕ × ℕ)) :=
  (months_of rows).map (fun m => (m, (categories_of rows).map (fun c => (c, cat_count rows m c))))

/-- One column of the pivoted count matrix `count_df`: the counts of a fixed
category across the observed months, in month order. -/
def category_column (rows : List (ℕ × ℕ)) (c : ℕ) : List ℕ :=
  (months_of rows).map (fun m => cat_count rows m c)

/-- The composite score of category `c` at month index `t`. -/
noncomputable def viral_score (rows : List (ℕ × ℕ)) (c t : ℕ) : Val ℝ :=
  monthly_viral_index (category_column rows c) t

/-- The descending order used by `sort_values(ascending=False)`: NaN sorts
last (treated as the least element), infinities at the extremes. -/
def Val.ge : Val ℝ → Val ℝ → Prop
  | _, ninf => True
  | ninf, _ => False
  | _, nan => True
  | nan, _ => False
  | num a, num b => b ≤ a
  | inf, _ => True
  | _, inf => False

noncomputable instance (x y : Val ℝ) : Decidable (Val.ge x y) :=
  Classical.propDecidable _

/-- One insertion step of the descending sort; an element is placed before
the first existing element it compares greater-or-equal to, so that
earlier-enumerated categories stay ahead of equal-scored later ones. -/
noncomputable def insert_desc (x : ℕ × Val ℝ) : List (ℕ × Val ℝ) → List (ℕ × Val ℝ)
  | [] => [x]
  | y :: ys => if Val.ge x.2 y.2 then x :: y :: ys else y :: insert_desc x ys

/-- The sort `sort_values(ascending=False)` on a (category, score) row,
modelled as a stable descending sort (numpy sorts small arrays by insertion
sort, which is stable; ties keep the original column enumeration order). -/
noncomputable def sort_desc : List (ℕ × Val ℝ) → List (ℕ × Val ℝ)
  | [] => []
  | x :: xs => insert_desc x (sort_desc xs)

/-- Step 4 ranking: `viral_index.loc[month].sort_values(ascending=False).head(3)`,
the top-3 (category, score) pairs of month index `t`; list position is rank. -/
noncomputable def monthly_top3 (rows : List (ℕ × ℕ)) (t : ℕ) : List (ℕ × Val ℝ) :=
  (sort_desc ((categories_of rows).map (fun c => (c, viral_score rows c t)))).take 3

/-- Modelled from the spec: the "stable original category ordering
(first-seen order)" that the ranking claims use as tie-break; the code
itself enumerates categories in sorted label order instead.  Lists each
category at its first occurrence in the raw rows. -/
def first_seen_categories (rows : List (ℕ × ℕ)) : List ℕ :=
  (rows.map Prod.snd).foldl (fun acc c => if c ∈ acc then acc else acc ++ [c]) []

/-- The displayed month-over-month change of the top-3 view (step 4):
`None` renders as the string 'N/A' (first month), otherwise the raw
percentage change, with a zero previous count mapped to `0`. -/
def mom_change (col : List ℕ) (i : ℕ) : Option ℚ :=
  if 0 < i then
    some (if 0 < col.getD (i - 1) 0 then (cnt col i - cnt col (i - 1)) / cnt col (i - 1) * 100 else 0)
  else none

/-- Round to the nearest integer, ties to even, as float formatting does. -/
def round_half_even (q : ℚ) : ℤ :=
  if q - ⌊q⌋ < 1 / 2 then ⌊q⌋
  else if 1 / 2 < q - ⌊q⌋ then ⌊q⌋ + 1
  else if ⌊q⌋ % 2 = 0 then ⌊q⌋ else ⌊q⌋ + 1

/-- Python's `f-string` `+.1f` formatting: explicit sign, one decimal. -/
def fmt_signed_1f (q : ℚ) : String :=
  let n := round_half_even (q * 10)
  (if q < 0 then "-" else "+") ++ toString (n.natAbs / 10) ++ "." ++ toString (n.natAbs % 10)

/-- The `전월대비` column of the top-3 view: 'N/A' for the first month,
otherwise the formatted signed percentage. -/
def mom_str (col : List ℕ) (i : ℕ) : String :=
  match mom_change col i with
  | none => "N/A"
  | some q => fmt_signed_1f q ++ "%"

/-! ### Helper lemmas -/

theorem cnt_nonneg (col : List ℕ) (t : ℕ) : 0 ≤ cnt col t := Nat.cast_nonneg _

theorem rolling_mean_nonneg (w : ℕ) (col : List ℕ) (t : ℕ) : 0 ≤ rolling_mean w col t := by
  apply div_nonneg
  · apply List.sum_nonneg
    intro x hx
    obtain ⟨k, _, rfl⟩ := List.mem_map.mp hx
    exact cnt_nonneg col _
  · exact Nat.cast_nonneg _

/-- The weekly growth signal after the first bucket is an ordinary number:
its denominator `counts[t-1] + 1` is strictly positive. -/
theorem wow_growth_num (col : List ℕ) (t : ℕ) :
    wow_growth col (t + 1) =
      Val.num ((cnt col (t + 1) - cnt col t) / (cnt col t + 1) * 100) := by
  have h : (0 : ℚ) < cnt col t + 1 := by have := cnt_nonneg col t; linarith
  rw [wow_growth, if_neg (Nat.succ_ne_zero t), Nat.add_sub_cancel, qdiv, if_neg h.ne']
  simp [Val.smul]

/-- The weekly deviation signal is an ordinary number at every bucket: its
denominator `ma[t] + 1` is strictly positive. -/
theorem weekly_ma_deviation_num (col : List ℕ) (t : ℕ) :
    weekly_ma_deviation col t =
      Val.num ((cnt col t - rolling_mean 4 col t) / (rolling_mean 4 col t + 1) * 100) := by
  have h : (0 : ℚ) < rolling_mean 4 col t + 1 := by
    have := rolling_mean_nonneg 4 col t; linarith
  rw [weekly_ma_deviation, qdiv, if_neg h.ne']
  simp [Val.smul]

/-- A period-over-period style ratio with the `+1` denominator offset is
bounded below by `-100` whenever both operands are non-negative. -/
theorem pct_lower_bound {c p : ℚ} (hc : 0 ≤ c) (hp : 0 ≤ p) :
    -100 ≤ (c - p) / (p + 1) * 100 := by
  have hp1 : (0 : ℚ) < p + 1 := by linarith
  have h1 : -(1 : ℚ) ≤ (c - p) / (p + 1) := by
    rw [le_div_iff₀ hp1]
    linarith
  linarith [mul_le_mul_of_nonneg_right h1 (by norm_num : (0 : ℚ) ≤ 100)]

/-- Clipping at `300` and weighting by `0.4` bounds the magnitude by
`300 * 0.4` for any signal value that is at least `-100`. -/
theorem min300_smul_bound {v : ℚ} (hv : -100 ≤ v) :
    |min v 300 * (0.4 : ℚ)| ≤ 300 * 0.4 := by
  have h1 : min v 300 ≤ 300 := min_le_right _ _
  have h2 : -300 ≤ min v 300 := le_min (by linarith) (by norm_num)
  have h3 : |min v 300| ≤ 300 := abs_le.mpr ⟨h2, h1⟩
  rw [abs_mul]
  have h4 : |(0.4 : ℚ)| = 0.4 := by norm_num
  rw [h4]
  exact mul_le_mul_of_nonneg_right h3 (by norm_num)

/-- The z slot of the weekly composite is bounded by `30 * 0.2` in magnitude
whatever pandas value the z-score takes. -/
theorem z_term_shape (v : Val ℝ) :
    ∃ r, ((((v.clip_both (-3) 3).fillna0).smul 10).smul 0.2) = Val.num r ∧
      |r| ≤ 30 * 0.2 := by
  cases v with
  | num a =>
    refine ⟨_, rfl, ?_⟩
    have h1 : max ((-3 : ℚ) : ℝ) (min a ((3 : ℚ) : ℝ)) ≤ 3 := by
      push_cast
      exact max_le (by norm_num) (min_le_right _ _)
    have h2 : (-3 : ℝ) ≤ max ((-3 : ℚ) : ℝ) (min a ((3 : ℚ) : ℝ)) := by
      push_cast
      exact le_max_left _ _
    have h3 : |max ((-3 : ℚ) : ℝ) (min a ((3 : ℚ) : ℝ))| ≤ 3 := abs_le.mpr ⟨h2, h1⟩
    rw [abs_mul, abs_mul]
    have h10 : |((10 : ℚ) : ℝ)| = 10 := by norm_num
    have h02 : |((0.2 : ℚ) : ℝ)| = 0.2 := by norm_num
    rw [h10, h02]
    calc |max ((-3 : ℚ) : ℝ) (min a ((3 : ℚ) : ℝ))| * 10 * 0.2
        = |max ((-3 : ℚ) : ℝ) (min a ((3 : ℚ) : ℝ))| * 2 := by ring
      _ ≤ 3 * 2 := by linarith
      _ ≤ 30 * 0.2 := by norm_num
  | nan => exact ⟨_, rfl, by norm_num⟩
  | inf => exact ⟨_, rfl, by norm_num⟩
  | ninf => exact ⟨_, rfl, by norm_num⟩

theorem Val.ge_refl (x : Val ℝ) : x.ge x := by
  cases x <;> simp [Val.ge]

theorem Val.ge_total (x y : Val ℝ) : x.ge y ∨ y.ge x := by
  cases x <;> cases y <;> simp [Val.ge, le_total]

theorem Val.ge_trans {x y z : Val ℝ} (h1 : x.ge y) (h2 : y.ge z) : x.ge z := by
  cases x <;> cases y <;> cases z <;> simp_all [Val.ge]
  exact h2.trans h1

theorem mem_insert_desc {x y : ℕ × Val ℝ} {l : List (ℕ × Val ℝ)} :
    y ∈ insert_desc x l ↔ y = x ∨ y ∈ l := by
  induction l with
  | nil => simp [insert_desc]
  | cons z zs ih =>
    rw [insert_desc]
    by_cases h : Val.ge x.2 z.2
    · simp [h, List.mem_cons]
    · rw [if_neg h]
      simp only [List.mem_cons, ih]
      tauto

theorem length_insert_desc (x : ℕ × Val ℝ) (l : List (ℕ × Val ℝ)) :
    (insert_desc x l).length = l.length + 1 := by
  induction l with
  | nil => rfl
  | cons z zs ih =>
    rw [insert_desc]
    by_cases h : Val.ge x.2 z.2
    · simp [h]
    · simp [if_neg h, ih]

theorem length_sort_desc (l : List (ℕ × Val ℝ)) : (sort_desc l).length = l.length := by
  induction l with
  | nil => rfl
  | cons x xs ih =>
    rw [sort_desc, length_insert_desc, ih]
    rfl

theorem mem_sort_desc {y : ℕ × Val ℝ} {l : List (ℕ × Val ℝ)} :
    y ∈ sort_desc l ↔ y ∈ l := by
  induction l with
  | nil => simp [sort_desc]
  | cons x xs ih =>
    rw [sort_desc, mem_insert_desc]
    simp [ih]

/-- Inserting an element whose label is smaller than every equal-scored
element of a sorted list keeps the list sorted in the descending-score,
ties-by-label order. -/
theorem pairwise_insert_desc {x : ℕ × Val ℝ} {l : List (ℕ × Val ℝ)}
    (hx : ∀ y ∈ l, x.2 = y.2 → x.1 < y.1)
    (hl : l.Pairwise (fun a b => Val.ge a.2 b.2 ∧ (a.2 = b.2 → a.1 < b.1))) :
    (insert_desc x l).Pairwise (fun a b => Val.ge a.2 b.2 ∧ (a.2 = b.2 → a.1 < b.1)) := by
  induction l with
  | nil => simp [insert_desc]
  | cons z zs ih =>
    rw [List.pairwise_cons] at hl
    obtain ⟨hz, hzs⟩ := hl
    rw [insert_desc]
    by_cases h : Val.ge x.2 z.2
    · rw [if_pos h]
      refine List.Pairwise.cons ?_ (List.Pairwise.cons hz hzs)
      intro w hw
      rcases List.mem_cons.mp hw with rfl | hw
      · exact ⟨h, hx w (List.mem_cons_self _ _)⟩
      · exact ⟨Val.ge_trans h (hz w hw).1, hx w (List.mem_cons_of_mem _ hw)⟩
    · rw [if_neg h]
      refine List.Pairwise.cons ?_ (ih (fun w hw => hx w (List.mem_cons_of_mem _ hw)) hzs)
      intro w hw
      rcases mem_insert_desc.mp hw with rfl | hw
      · refine ⟨(Val.ge_total z.2 w.2).resolve_right h, fun he => ?_⟩
        exact absurd (show Val.ge w.2 z.2 by rw [he]; exact Val.ge_refl _) h
      · exact hz w hw

/-- The stable descending sort of a list with strictly increasing labels is
ordered by descending score with ties broken by increasing label. -/
theorem pairwise_sort_desc {l : List (ℕ × Val ℝ)}
    (hl : l.Pairwise (fun a b => a.1 < b.1)) :
    (sort_desc l).Pairwise (fun a b => Val.ge a.2 b.2 ∧ (a.2 = b.2 → a.1 < b.1)) := by
  induction l with
  | nil => simp [sort_desc]
  | cons x xs ih =>
    rw [List.pairwise_cons] at hl
    obtain ⟨hx, hxs⟩ := hl
    rw [sort_desc]
    exact pairwise_insert_desc (fun y hy _ => hx y (mem_sort_desc.mp hy)) (ih hxs)

/-- The observed category enumeration is strictly increasing (it is sorted
and duplicate-free). -/
theorem categories_of_pairwise_lt (rows : List (ℕ × ℕ)) :
    (categories_of rows).Pairwise (· < ·) := by
  have hs : (categories_of rows).Pairwise (· ≤ ·) := List.sorted_insertionSort _ _
  have hn : (categories_of rows).Nodup :=
    (List.perm_insertionSort _ _).symm.nodup (List.nodup_dedup _)
  exact (hs.and hn).imp fun h => lt_of_le_of_ne h.1 h.2

theorem lookup_map_self {β : Type} (f : ℕ → β) {m : ℕ} :
    ∀ {l : List ℕ}, m ∈ l → List.lookup m (l.map fun x => (x, f x)) = some (f m)
  | a :: as, hm => by
    rw [List.map_cons, List.lookup_cons]
    by_cases h : m = a
    · subst h
      rw [beq_self_eq_true]
    · have hm' : m ∈ as := by
        rcases List.mem_cons.mp hm with rfl | hm'
        · exact absurd rfl h
        · exact hm'
      rw [show (m == a) = false from beq_eq_false_iff_ne.mpr h]
      exact lookup_map_self f hm'

theorem length_filter_partition {α : Type} (p : α → Bool) (l : List α) :
    (l.filter (fun a => !(p a))).length + (l.filter p).length = l.length := by
  induction l with
  | nil => rfl
  | cons a as ih =>
    cases hp : p a <;> simp [List.filter_cons, hp] <;> omega

example : mom_growth [10, 10, 40] 2 = Val.num 300 := by
  norm_num [mom_growth, cnt, qdiv, Val.smul]
example : monthly_ma_deviation [10, 10, 40] 2 = Val.num 100 := by
  norm_num [monthly_ma_deviation, cnt, qdiv, Val.smul, rolling_mean, List.range_succ]
example : mom_growth [0, 5] 1 = Val.inf := by
  norm_num [mom_growth, cnt, qdiv, Val.smul]
example : wow_growth [0, 5] 1 = Val.num 500 := by
  norm_num [wow_growth, cnt, qdiv, Val.smul]
example : var_q [10, 10, 40] = 300 := by
  norm_num [var_q, mean_q]

/-! ### Claim theorems -/

/-- C1 (counterexample): on counts {Jan: 10, Feb: 10, Mar: 40} the monthly
implementation computes growth[Mar] = 300 via `pct_change()`, not the
claimed (40-10)/(10+1)*100 = 3000/11 ≈ 272.7: the claimed numeric chain is
not the one the code produces. -/
theorem c1_counterexample :
    mom_growth [10, 10, 40] 2 = Val.num 300 ∧ (300 : ℚ) ≠ (40 - 10) / (10 + 1) * 100 := by
  constructor
  · norm_num [mom_growth, cnt, qdiv, Val.smul]
  · norm_num

/-- C1 (amended): on counts {Jan: 10, Feb: 10, Mar: 40} the monthly
implementation computes growth[Mar] = (40-10)/10*100 = 300 (no +1
denominator), deviation[Mar] = (40-20)/20*100 = 100 (no +1 denominator),
z[Mar] = (40-20)/sqrt(300) ≈ 1.155 using the sample (ddof=1) standard
deviation with no epsilon, scales z by 20 (with no clipping anywhere), and
composite[Mar] = 300*0.5 + 100*0.3 + (20/sqrt 300)*20*0.2
= 180 + 8*sqrt(3)/3 ≈ 184.62, not the claimed 167.8. -/
theorem c1_amended :
    mom_growth [10, 10, 40] 2 = Val.num 300 ∧
    monthly_ma_deviation [10, 10, 40] 2 = Val.num 100 ∧
    monthly_z [10, 10, 40] 2 = Val.num (20 / Real.sqrt 300) ∧
    monthly_viral_index [10, 10, 40] 2 = Val.num (180 + 8 * Real.sqrt 3 / 3) := by
  have hg : mom_growth [10, 10, 40] 2 = Val.num 300 := by
    norm_num [mom_growth, cnt, qdiv, Val.smul]
  have hd : monthly_ma_deviation [10, 10, 40] 2 = Val.num 100 := by
    norm_num [monthly_ma_deviation, cnt, qdiv, Val.smul, rolling_mean, List.range_succ]
  have hvar : var_q [10, 10, 40] = 300 := by norm_num [var_q, mean_q]
  have hsq : (0 : ℝ) < Real.sqrt 300 := Real.sqrt_pos.mpr (by norm_num)
  have hz : monthly_z [10, 10, 40] 2 = Val.num (20 / Real.sqrt 300) := by
    rw [monthly_z, if_neg (by norm_num), hvar, rdiv,
      if_neg (by push_cast; exact hsq.ne')]
    norm_num [cnt, mean_q]
  have hsqrt300 : Real.sqrt 300 = 10 * Real.sqrt 3 := by
    rw [show (300 : ℝ) = 10 ^ 2 * 3 by norm_num, Real.sqrt_mul (by positivity) 3,
      Real.sqrt_sq (by norm_num)]
  have hmul3 : Real.sqrt 3 * Real.sqrt 3 = 3 := Real.mul_self_sqrt (by norm_num)
  have hs3 : (0 : ℝ) < Real.sqrt 3 := Real.sqrt_pos.mpr (by norm_num)
  refine ⟨hg, hd, hz, ?_⟩
  rw [monthly_viral_index, monthly_growth_term, monthly_ma_term, monthly_z_term, hg, hd, hz]
  simp only [Val.fillna0, Val.smul, Val.toReal, Val.add, Val.num.injEq]
  have key : (20 : ℝ) / Real.sqrt 300 * ((20 : ℚ) : ℝ) * ((0.2 : ℚ) : ℝ)
      = 8 * Real.sqrt 3 / 3 := by
    rw [hsqrt300, show ((20 : ℚ) : ℝ) = 20 by norm_num,
      show ((0.2 : ℚ) : ℝ) = 0.2 by norm_num, div_mul_eq_mul_div, div_mul_eq_mul_div,
      div_eq_div_iff (by positivity) (by norm_num : (3 : ℝ) ≠ 0)]
    nlinarith [hmul3]
  rw [key]
  push_cast
  norm_num

/-- C2 (counterexample): the monthly implementation divides by zero in its
growth computation: with counts [0, 5] the second bucket's growth is
(5-0)/0, an infinity, because the denominator is the raw previous count
with no +1 offset. -/
theorem c2_counterexample : mom_growth [0, 5] 1 = Val.inf := by
  norm_num [mom_growth, cnt, qdiv, Val.smul]

/-- C2 (amended): in the weekly implementation the growth denominator
`counts[t-1] + 1` and the deviation denominator `ma[t] + 1` are strictly
positive for every non-negative count series, so both signals are ordinary
numbers (never an infinity or a 0/0 NaN) at every bucket with a
predecessor, and deviation at every bucket; the monthly implementation has
no such offsets and does divide by zero. -/
theorem c2_amended (col : List ℕ) (t : ℕ) :
    (∃ q, wow_growth col (t + 1) = Val.num q) ∧
    (∃ q, weekly_ma_deviation col t = Val.num q) :=
  ⟨⟨_, wow_growth_num col t⟩, ⟨_, weekly_ma_deviation_num col t⟩⟩

/-- C3 (counterexample): the monthly z-score has no epsilon offset: on the
zero-variance column [5, 5] its denominator is std = 0 and the z-score is
NaN (0/0), not a finite value. -/
theorem c3_counterexample : monthly_z [5, 5] 0 = Val.nan := by
  have hvar : var_q [5, 5] = 0 := by norm_num [var_q, mean_q]
  rw [monthly_z, if_neg (by norm_num), hvar, rdiv]
  norm_num [cnt, mean_q]

/-- C3 (amended): in the weekly implementation the z-score denominator
`std + 1e-9` is strictly positive (std is a square root, hence
non-negative), so every z-score of a column with at least two buckets is an
ordinary finite number, even at zero variance; the monthly implementation
has no epsilon and produces NaN on a zero-variance column. -/
theorem c3_amended (a b : ℕ) (rest : List ℕ) (t : ℕ) :
    ∃ r, weekly_z (a :: b :: rest) t = Val.num r := by
  rw [weekly_z, if_neg (by simp)]
  have hd : (0 : ℝ) < Real.sqrt ((var_q (a :: b :: rest) : ℝ)) + 1e-9 := by
    have h := Real.sqrt_nonneg ((var_q (a :: b :: rest) : ℝ))
    have : (0 : ℝ) < 1e-9 := by norm_num
    linarith
  rw [rdiv, if_neg hd.ne']
  exact ⟨_, rfl⟩

/-- C4 (counterexample): the monthly implementation applies no clipping:
with counts [1, 1000] the growth signal is 99900 and its weighted
contribution to the composite is 49950, far above 300 times the 0.5
weight. -/
theorem c4_counterexample :
    monthly_growth_term [1, 1000] 1 = Val.num 49950 ∧ ¬ (|(49950 : ℚ)| ≤ 300 * 0.5) := by
  constructor
  · norm_num [monthly_growth_term, mom_growth, cnt, qdiv, Val.smul, Val.fillna0]
  · norm_num

/-- C4 (amended): in the weekly implementation growth and deviation are
clipped to the upper bound +300 before weighting, and both signals are
bounded below by -100, so each signal's weighted contribution to the
composite is at most 300 * 0.4 in absolute value at every bucket; the
monthly implementation applies no clipping and its contributions are
unbounded. -/
theorem c4_amended (col : List ℕ) (t : ℕ) :
    (∃ q, weekly_growth_term col t = Val.num q ∧ |q| ≤ 300 * 0.4) ∧
    (∃ q, weekly_ma_term col t = Val.num q ∧ |q| ≤ 300 * 0.4) := by
  constructor
  · rcases t with _ | s
    · have h0 : weekly_growth_term col 0 = Val.num 0 := by
        norm_num [weekly_growth_term, wow_growth, Val.clip_upper, Val.fillna0, Val.smul]
      exact ⟨0, h0, by norm_num⟩
    · rw [weekly_growth_term, wow_growth_num col s]
      refine ⟨_, rfl, ?_⟩
      exact min300_smul_bound (pct_lower_bound (cnt_nonneg col _) (cnt_nonneg col _))
  · rw [weekly_ma_term, weekly_ma_deviation_num col t]
    refine ⟨_, rfl, ?_⟩
    exact min300_smul_bound (pct_lower_bound (cnt_nonneg col _) (rolling_mean_nonneg 4 col t))

/-- C5 (counterexample): the monthly implementation neither clips the
z-score to [-3, 3] nor scales it by 10: it scales the raw z-score by 20,
and on the column [0, 0, 0, 0, 100] the z contribution to the composite is
320/sqrt(2000) ≈ 7.16, exceeding 30 times the 0.2 weight (= 6). -/
theorem c5_counterexample :
    monthly_z_term [0, 0, 0, 0, 100] 4 = Val.num (320 / Real.sqrt 2000) ∧
    30 * (0.2 : ℝ) < 320 / Real.sqrt 2000 := by
  have hvar : var_q [0, 0, 0, 0, 100] = 2000 := by norm_num [var_q, mean_q]
  have hsq : (0 : ℝ) < Real.sqrt 2000 := Real.sqrt_pos.mpr (by norm_num)
  have h53 : Real.sqrt 2000 < 53 := by
    have := Real.sqrt_lt_sqrt (by norm_num : (0 : ℝ) ≤ 2000) (by norm_num : (2000 : ℝ) < 2809)
    calc Real.sqrt 2000 < Real.sqrt 2809 := this
      _ = 53 := by
        rw [show (2809 : ℝ) = 53 ^ 2 by norm_num, Real.sqrt_sq (by norm_num)]
  constructor
  · have hz : monthly_z [0, 0, 0, 0, 100] 4 = Val.num (80 / Real.sqrt 2000) := by
      rw [monthly_z, if_neg (by norm_num), hvar, rdiv,
        if_neg (by push_cast; exact hsq.ne')]
      norm_num [cnt, mean_q]
    rw [monthly_z_term, hz]
    simp only [Val.fillna0, Val.smul, Val.num.injEq]
    rw [show ((20 : ℚ) : ℝ) = 20 by norm_num, show ((0.2 : ℚ) : ℝ) = 0.2 by norm_num,
      div_mul_eq_mul_div, div_mul_eq_mul_div]
    norm_num
  · rw [lt_div_iff₀ hsq]
    nlinarith

/-- C5 (amended): in the weekly implementation the z-score is clipped to
[-3, 3], scaled by 10 and weighted by 0.2, so its contribution to every
composite value is an ordinary number of magnitude at most 30 * 0.2; the
monthly implementation scales the raw unclipped z-score by 20 and can
exceed that bound. -/
theorem c5_amended (col : List ℕ) (t : ℕ) :
    ∃ r, weekly_z_term col t = Val.num r ∧ |r| ≤ 30 * 0.2 := by
  rw [weekly_z_term]
  exact z_term_shape (weekly_z col t)

/-- C6: in both implementations, the earliest bucket of every non-empty
count series contributes exactly 0 through the growth slot (NaN growth,
zero-filled) and exactly 0 through the moving-average-deviation slot (the
single-period moving average equals the count, and the 0/0 NaN arising on
a zero first count is also zero-filled). -/
theorem c6_first_period_neutral (c : ℕ) (rest : List ℕ) :
    monthly_growth_term (c :: rest) 0 = Val.num 0 ∧
    monthly_ma_term (c :: rest) 0 = Val.num 0 ∧
    weekly_growth_term (c :: rest) 0 = Val.num 0 ∧
    weekly_ma_term (c :: rest) 0 = Val.num 0 := by
  have hcnt : cnt (c :: rest) 0 = (c : ℚ) := by norm_num [cnt]
  have hrm3 : rolling_mean 3 (c :: rest) 0 = (c : ℚ) := by
    norm_num [rolling_mean, cnt]
  have hrm4 : rolling_mean 4 (c :: rest) 0 = (c : ℚ) := by
    norm_num [rolling_mean, cnt]
  refine ⟨?_, ?_, ?_, ?_⟩
  · norm_num [monthly_growth_term, mom_growth, Val.fillna0, Val.smul]
  · rw [monthly_ma_term, monthly_ma_deviation, hrm3, hcnt, sub_self]
    by_cases hc : (c : ℚ) = 0
    · rw [qdiv, if_pos hc]
      norm_num [Val.smul, Val.fillna0]
    · rw [qdiv, if_neg hc]
      norm_num [Val.smul, Val.fillna0]
  · norm_num [weekly_growth_term, wow_growth, Val.clip_upper, Val.fillna0, Val.smul]
  · have h4 : (0 : ℚ) < (c : ℚ) + 1 := by positivity
    rw [weekly_ma_term, weekly_ma_deviation, hrm4, hcnt, sub_self, qdiv, if_neg h4.ne']
    norm_num [Val.smul, Val.fillna0, Val.clip_upper]

/-- C9 (counterexample): a row with a missing category is not excluded by
the classification filter `df['카테고리'] != '미분류'`: a NaN category
compares unequal to the literal and the row is kept for aggregation. -/
theorem c9_counterexample :
    df_classified [(1, none)] = [(1, (none : Option String))] := by
  decide

/-- C9 (amended): the monthly implementation excludes exactly the rows
labelled '미분류' (unclassified): no kept row carries that label and the
kept and excluded row counts partition the input (the script reports the
total and kept counts, whose difference is the excluded count).  Rows with
a missing category are not excluded, and no per-row timestamp-parse
exclusion exists. -/
theorem c9_amended (rows : List (ℕ × Option String)) :
    (∀ r ∈ df_classified rows, r.2 ≠ some "미분류") ∧
    (df_classified rows).length +
      (rows.filter (fun r => r.2 == some "미분류")).length = rows.length := by
  constructor
  · intro r hr
    have h := List.of_mem_filter hr
    simpa [bne_iff_ne] using h
  · exact length_filter_partition (fun r => r.2 == some "미분류") rows

/-- C9 (witness): the partition equality evaluated on a concrete mixed
input of one unclassified and one classified row. -/
theorem c9_witness :
    (df_classified [(1, some "미분류"), (2, some "증시")]).length +
      ([((1 : ℕ), some "미분류"), (2, some "증시")].filter
        (fun r => r.2 == some "미분류")).length = 2 := by
  simpa using (c9_amended [(1, some "미분류"), (2, some "증시")]).2

/-- C10: in the monthly top-3 view, the displayed month-over-month change
is 'N/A' exactly at the first month, and at any later month whose previous
count is 0 it is exactly the string '+0.0%' (the change value is forced to
0), even when the current count is positive. -/
theorem c10_mom_display (col : List ℕ) (i : ℕ) :
    (mom_change col i = none ↔ i = 0) ∧
    (0 < i → col.getD (i - 1) 0 = 0 → mom_str col i = "+0.0%") := by
  constructor
  · constructor
    · intro h
      by_contra hi
      rw [mom_change, if_pos (Nat.pos_of_ne_zero hi)] at h
      exact Option.some_ne_none _ h
    · rintro rfl
      simp [mom_change]
  · intro hi hprev
    have hchange : mom_change col i = some 0 := by
      rw [mom_change, if_pos hi, hprev]
      norm_num
    have hfmt : fmt_signed_1f 0 = "+0.0" := by
      have hr : round_half_even ((0 : ℚ) * 10) = 0 := by
        norm_num [round_half_even]
      rw [fmt_signed_1f, hr]
      norm_num
      decide
    rw [mom_str, hchange]
    show fmt_signed_1f 0 ++ "%" = "+0.0%"
    rw [hfmt]
    decide

/-- C10 (witness): with counts [3, 0, 9] the third month has previous count
0 and displays '+0.0%' despite its own count being 9. -/
theorem c10_witness :
    0 < 2 ∧ [3, 0, 9].getD (2 - 1) 0 = 0 ∧ mom_str [3, 0, 9] 2 = "+0.0%" :=
  ⟨by norm_num, by decide, (c10_mom_display [3, 0, 9] 2).2 (by norm_num) (by decide)⟩

/-- A single-bucket column has composite score 0: NaN growth and z-score
are zero-filled and the single-period moving average equals the count. -/
theorem monthly_viral_index_single : monthly_viral_index [1] 0 = Val.num 0 := by
  norm_num [monthly_viral_index, monthly_growth_term, monthly_ma_term, monthly_z_term,
    mom_growth, monthly_ma_deviation, monthly_z, rolling_mean, cnt, qdiv,
    Val.smul, Val.fillna0, Val.toReal, Val.add]

/-- C7 (counterexample): with two same-month categories 7 and 3 (first seen
in that order) and equal counts, the composite scores tie, yet rank 1 goes
to category 3 — the smaller label in the sorted column enumeration — not
to category 7, the earlier one in first-seen order. -/
theorem c7_counterexample :
    first_seen_categories [(0, 7), (0, 3)] = [7, 3] ∧
    monthly_top3 [(0, 7), (0, 3)] 0 = [(3, Val.num 0), (7, Val.num 0)] := by
  constructor
  · decide
  · have hcats : categories_of [(0, 7), (0, 3)] = [3, 7] := by decide
    have hc3 : category_column [(0, 7), (0, 3)] 3 = [1] := by decide
    have hc7 : category_column [(0, 7), (0, 3)] 7 = [1] := by decide
    have h3 : viral_score [(0, 7), (0, 3)] 3 0 = Val.num 0 := by
      rw [viral_score, hc3, monthly_viral_index_single]
    have h7 : viral_score [(0, 7), (0, 3)] 7 0 = Val.num 0 := by
      rw [viral_score, hc7, monthly_viral_index_single]
    rw [monthly_top3, hcats]
    simp only [List.map_cons, List.map_nil, h3, h7]
    simp [sort_desc, insert_desc, Val.ge]

/-- C7 (amended): for every input and month, the ranked view keeps only the
first three entries (fewer when fewer categories exist), and a tie in
composite score between two categories is broken toward the category that
is earlier in the sorted category enumeration (the smaller label gets the
better rank) — not the first-seen enumeration, which the implementation
never constructs. -/
theorem c7_amended (rows : List (ℕ × ℕ)) (t : ℕ) :
    (monthly_top3 rows t).length = min 3 (categories_of rows).length ∧
    List.Pairwise (fun a b => a.2 = b.2 → a.1 < b.1) (monthly_top3 rows t) := by
  constructor
  · rw [monthly_top3, List.length_take, length_sort_desc, List.length_map]
  · have hp : ((categories_of rows).map (fun c => (c, viral_score rows c t))).Pairwise
        (fun a b => a.1 < b.1) := by
      rw [List.pairwise_map]
      exact categories_of_pairwise_lt rows
    have hs := pairwise_sort_desc hp
    exact (hs.sublist (List.take_sublist _ _)).imp fun h => h.2

/-- C8 (counterexample): the monthly builder takes its month keys only from
`sorted(unique(...))` and never reindexes to a contiguous range: with rows
in months 1 and 3 only, month 2 lies strictly inside the observed bucket
range yet has no entry at all in the count dictionary — no (bucket,
category) value is defined there, zero-filled or otherwise. -/
theorem c8_counterexample :
    months_of [(1, 5), (3, 5)] = [1, 3] ∧
    (monthly_counts [(1, 5), (3, 5)]).lookup 2 = none := by
  decide

/-- C8 (amended): after aggregation, every month observed in the input and
every observed category has a defined entry in the nested count
dictionary, equal to the number of raw rows with that month and category —
hence 0 exactly when no raw row maps to the pair.  Buckets inside the
observed min-to-max range but absent from the input get no entry: the
monthly builder does not reindex to a contiguous bucket range. -/
theorem c8_zero_fill (rows : List (ℕ × ℕ)) (m c : ℕ)
    (hm : m ∈ rows.map Prod.fst) (hc : c ∈ rows.map Prod.snd) :
    ∃ inner, (monthly_counts rows).lookup m = some inner ∧
      inner.lookup c = some (cat_count rows m c) ∧
      ((∀ r ∈ rows, ¬(r.1 = m ∧ r.2 = c)) → cat_count rows m c = 0) := by
  have hm' : m ∈ months_of rows := by
    rw [months_of, (List.perm_insertionSort _ _).mem_iff, List.mem_dedup]
    exact hm
  have hc' : c ∈ categories_of rows := by
    rw [categories_of, (List.perm_insertionSort _ _).mem_iff, List.mem_dedup]
    exact hc
  refine ⟨(categories_of rows).map (fun c => (c, cat_count rows m c)), ?_, ?_, ?_⟩
  · rw [monthly_counts]
    exact lookup_map_self _ hm'
  · exact lookup_map_self _ hc'
  · intro h
    rw [cat_count, List.length_eq_zero, List.filter_eq_nil_iff]
    intro r hr
    have hr' := h r hr
    simp only [Bool.and_eq_true, beq_iff_eq]
    tauto

/-- C8 (witness): the zero-fill invariant evaluated on the one-row input
[(month 1, category 2)]. -/
theorem c8_witness :
    (1 ∈ ([(1, 2)] : List (ℕ × ℕ)).map Prod.fst) ∧
    (2 ∈ ([(1, 2)] : List (ℕ × ℕ)).map Prod.snd) ∧
    (∃ inner, (monthly_counts [(1, 2)]).lookup 1 = some inner ∧
      inner.lookup 2 = some (cat_count [(1, 2)] 1 2) ∧
      ((∀ r ∈ [((1 : ℕ), (2 : ℕ))], ¬(r.1 = 1 ∧ r.2 = 2)) → cat_count [(1, 2)] 1 2 = 0)) :=
  ⟨by decide, by decide, c8_zero_fill [(1, 2)] 1 2 (by decide) (by decide)⟩
